import Mathlib

/-!
Verification development for the conductor_takehome number-extraction
pipeline (src/conductor_takehome/{extractor,scale,filters}.py).

Shallow-embedding conventions:
* Python floats are modelled as rationals (exact arithmetic).
* Python regular expressions are embedded as executable matchers that
  reproduce the source patterns' leftmost-search, alternation-order and
  greedy-quantifier semantics on the relevant character classes.
  Character classes are modelled at ASCII fidelity where the Python
  re module would use Unicode categories: a digit is one of 0-9, a word
  character (for word boundaries) is an ASCII alphanumeric or an
  underscore, and case-insensitive matching folds ASCII letters only.
  All inputs appearing in the claims are ASCII apart from the explicit
  whitespace/footnote code points, which are modelled exactly.
* Fallible code returns Option; a caught Python exception is an
  explicit Except value.
-/

attribute [local semireducible] Rat.add Rat.mul Rat.inv Rat.sub Rat.ofScientific
attribute [local semireducible] List.merge List.mergeSort

namespace Conductor

/-! ### Character classes -/

/-- Python whitespace (the characters stripped by str.strip and matched
by the regex class \s), at the fidelity needed here. -/
def pyIsSpace (c : Char) : Bool :=
  c = ' ' || c = '\t' || c = '\n' || c = '\r' || c = '\x0b' || c = '\x0c' ||
  c = '\x1c' || c = '\x1d' || c = '\x1e' || c = '\x1f' || c = '\x85' ||
  c = ' ' || c = ' ' || (' ' ≤ c && c ≤ ' ') ||
  c = ' ' || c = ' ' || c = ' ' || c = ' ' || c = '　'

/-- The grouping separators of _GROUP_SEP: comma, NBSP, thin space. -/
def isSep (c : Char) : Bool := c = ',' || c = ' ' || c = ' '

/-- The footnote glyph class of NUM_RE: asterisk, dagger, double dagger,
superscript 1-3, and the U+2070 - U+2079 block. -/
def isFoot (c : Char) : Bool :=
  c = '*' || c = '†' || c = '‡' ||
  c = '¹' || c = '²' || c = '³' ||
  ('⁰' ≤ c && c ≤ '⁹')

/-- ASCII lower-casing, modelling re.IGNORECASE / str.lower on the
ASCII letters the source patterns consist of. -/
def lcA (c : Char) : Char :=
  if 'A' ≤ c && c ≤ 'Z' then Char.ofNat (c.toNat + 32) else c

/-- ASCII upper-casing, modelling str.upper for the K/M/B lookup. -/
def ucA (c : Char) : Char :=
  if 'a' ≤ c && c ≤ 'z' then Char.ofNat (c.toNat - 32) else c

/-- Word characters for the regex \b word boundary (ASCII model of \w). -/
def isWordB (c : Char) : Bool := c.isAlphanum || c = '_'

def eatSp (s : List Char) : List Char := s.dropWhile pyIsSpace

def pyStrip (s : List Char) : List Char :=
  ((s.dropWhile pyIsSpace).reverse.dropWhile pyIsSpace).reverse

def strLower (s : String) : String := String.mk (s.toList.map lcA)

/-! ### Token Parser (extractor.parse_number and NUM_RE) -/

def takeDigits (s : List Char) : List Char × List Char :=
  (s.takeWhile Char.isDigit, s.dropWhile Char.isDigit)

/-- Consume a maximal run of regex groups ([sep]\d\d\d)*, returning the
consumed characters and the rest.  The regex quantifier is greedy; a
shorter run can never rescue a failed overall match because the leftover
separator-digit block is unmatchable by the tail of NUM_RE. -/
def takeGroups : List Char → (List Char × List Char)
  | c :: d1 :: d2 :: d3 :: rest =>
    if isSep c && d1.isDigit && d2.isDigit && d3.isDigit then
      let (gs, r) := takeGroups rest
      (c :: d1 :: d2 :: d3 :: gs, r)
    else ([], c :: d1 :: d2 :: d3 :: rest)
  | s => ([], s)

/-- The num group of NUM_RE.  Returns the matched slice and the rest of
the input.  Alternation order and greediness follow the regex; every
place where the regex engine could backtrack has been resolved by the
observation that the tail of NUM_RE can never consume a digit, a
separator followed by digits, or a dot, so the greedy/first-alternative
choice is the only viable one. -/
def numToken (s : List Char) : Option (List Char × List Char) :=
  match s with
  | [] => none
  | c :: cr =>
    if c.isDigit then
      let (ds, r1) := takeDigits (c :: cr)
      let grouped : Option (List Char × List Char) :=
        if ds.length ≤ 3 then
          match takeGroups r1 with
          | ([], _) => none
          | (gs, r2) => some (ds ++ gs, r2)
        else none
      let (ip, r2) := match grouped with
        | some g => g
        | none => (ds, r1)
      match r2 with
      | '.' :: r3 =>
        let (fs, r4) := takeDigits r3
        if fs = [] then none else some (ip ++ '.' :: fs, r4)
      | _ => some (ip, r2)
    else if c = '.' then
      let (fs, r1) := takeDigits cr
      if fs = [] then none else some ('.' :: fs, r1)
    else none

def digitsToNat (ds : List Char) : ℕ :=
  ds.foldl (fun a c => a * 10 + (c.toNat - 48)) 0

/-- Value of the cleaned num string (digits with an optional dot),
modelling Python float() exactly over the rationals. -/
def ratOfNum (cs : List Char) : ℚ :=
  let ip := cs.takeWhile (fun c => c ≠ '.')
  match cs.dropWhile (fun c => c ≠ '.') with
  | [] => (digitsToNat ip : ℚ)
  | _ :: frac => (digitsToNat ip : ℚ) + (digitsToNat frac : ℚ) / (10 : ℚ) ^ frac.length

/-- extractor.parse_number: parse a token into a numeric value.
Follows the source exactly: strip, anchored NUM_RE match (prefix [$(]?,
num, optional [%)] suffix, footnote glyphs, trailing whitespace),
separator removal, numeric conversion, parenthesised negation, and
percent rejection. -/
def parse_number (token : String) : Option ℚ :=
  let s1 := eatSp (pyStrip token.toList)
  let (pfx, s2) := match s1 with
    | c :: r => if c = '$' || c = '(' then (some c, r) else ((none : Option Char), s1)
    | [] => ((none : Option Char), s1)
  let s3 := eatSp s2
  match numToken s3 with
  | none => none
  | some (num, r0) =>
    let r1 := eatSp r0
    let (sfx, r2) := match r1 with
      | c :: r => if c = '%' || c = ')' then (some c, r) else ((none : Option Char), r1)
      | [] => ((none : Option Char), r1)
    let r3 := eatSp (r2.dropWhile isFoot)
    if r3 = [] then
      let val0 := ratOfNum (num.filter (fun c => !(isSep c)))
      let val := if pfx = some '(' && sfx = some ')' then -val0 else val0
      if sfx = some '%' then none else some val
    else none

/-! ### Words, boxes, line grouping -/

structure Word where
  text : String
  x0 : ℚ
  top : ℚ
  x1 : ℚ
  bottom : ℚ
deriving DecidableEq, Repr

/-- A bounding box (x0, top, x1, bottom) in page coordinates. -/
abbrev BBox := ℚ × ℚ × ℚ × ℚ

def wordBBox (w : Word) : BBox := (w.x0, w.top, w.x1, w.bottom)

/-- Python round(), which rounds halves to the nearest even integer. -/
def pyRound (q : ℚ) : ℤ :=
  let f := q.floor
  let r := q - (f : ℚ)
  if r < 1/2 then f
  else if (1/2 : ℚ) < r then f + 1
  else if f % 2 = 0 then f else f + 1

/-- The line bucket key round(top / bucket) * bucket with bucket 10. -/
def yKey (w : Word) : ℚ := ((pyRound (w.top / 10) : ℤ) : ℚ) * 10

/-- Insert a word into the insertion-ordered bucket map (Python dict
setdefault followed by append). -/
def addWordToLines : List (ℚ × List Word) → ℚ → Word → List (ℚ × List Word)
  | [], k, w => [(k, [w])]
  | (k0, ws) :: rest, k, w =>
    if k0 = k then (k0, ws ++ [w]) :: rest
    else (k0, ws) :: addWordToLines rest k w

/-- extractor.group_words_by_line; scale._lines_by_y is the identical
helper in scale.py, so both are modelled by this single definition.
The association list preserves Python's dict insertion order. -/
def group_words_by_line (words : List Word) : List (ℚ × List Word) :=
  words.foldl (fun acc w => addWordToLines acc (yKey w) w) []

/-- sorted(lines.items(), key by bucket) in detect_scale_phrase. -/
def sortedLines (words : List Word) : List (ℚ × List Word) :=
  (group_words_by_line words).mergeSort (fun a b => decide (a.1 ≤ b.1))

/-- extractor.inside_bbox (identical to scale._inside); the Python
default tolerance 0.5 is passed explicitly at every call site. -/
def inside_bbox (box region : BBox) (tolerance : ℚ) : Bool :=
  let (x0, y0, x1, y1) := box
  let (rx0, ry0, rx1, ry1) := region
  decide (x0 ≥ rx0 - tolerance) && decide (x1 ≤ rx1 + tolerance) &&
  decide (y0 ≥ ry0 - tolerance) && decide (y1 ≤ ry1 + tolerance)

/-! ### Scale phrase patterns (filters._PATTERNS) and detection

Each pattern is embedded as a matcher tried at one position: it gets the
previous character (for the word boundary at the start of the pattern)
and the suffix of the line text, and returns the group-1 slice plus the
unconsumed rest.  searchFirst then scans positions left to right,
reproducing re.search.  Greedy quantifiers and ordered alternation are
resolved deterministically; each resolution is justified by the shape of
the pattern (the character after a star/optional item can never belong
to the item's class, and alternatives start with distinct letters, so
the regex engine's first viable choice is the only viable one; for the
optional plural s in pattern 2 and the optional "in" of pattern 7,
committing to the greedy choice is justified because the skipped branch
always fails one step later). -/

abbrev Pat := Option Char → List Char → Option (List Char × List Char)

/-- Case-insensitive literal: consume pat, returning the original slice. -/
def takeLitCI (pat s : List Char) : Option (List Char × List Char) :=
  let n := pat.length
  let pre := s.take n
  if pre.map lcA = pat.map lcA then some (pre, s.drop n) else none

def expectChar (c : Char) (s : List Char) : Option (List Char) :=
  match s with
  | d :: r => if d = c then some r else none
  | [] => none

def eatOptChar (c : Char) (s : List Char) : List Char :=
  match s with
  | d :: r => if d = c then r else d :: r
  | [] => []

/-- The regex piece one-or-more-whitespace, consumed greedily. -/
def eatSp1 (s : List Char) : Option (List Char) :=
  match s with
  | c :: r => if pyIsSpace c then some (r.dropWhile pyIsSpace) else none
  | [] => none

def boundaryL (prev : Option Char) : Bool :=
  match prev with
  | none => true
  | some c => !isWordB c

def boundaryR (s : List Char) : Bool :=
  match s with
  | [] => true
  | c :: _ => !isWordB c

/-- The alternation thousands|millions|billions (distinct first letters,
so alternation order cannot matter at a fixed position). -/
def scaleWordTok (s : List Char) : Option (List Char × List Char) :=
  takeLitCI "thousands".toList s <|> takeLitCI "millions".toList s <|>
  takeLitCI "billions".toList s

/-- The alternation amounts?|figures?|values? of pattern 2.  The greedy
optional s is committed: when the plural matches, the singular branch
leaves an s on which the mandatory following whitespace fails. -/
def cueWordTok (s : List Char) : Option (List Char × List Char) :=
  takeLitCI "amounts".toList s <|> takeLitCI "amount".toList s <|>
  takeLitCI "figures".toList s <|> takeLitCI "figure".toList s <|>
  takeLitCI "values".toList s <|> takeLitCI "value".toList s

/-- K|M|B of pattern 7 (case-insensitive single letter). -/
def kmbTok (s : List Char) : Option (List Char × List Char) :=
  match s with
  | c :: r => if lcA c = 'k' || lcA c = 'm' || lcA c = 'b' then some ([c], r) else none
  | [] => none

/-- Pattern 1: backslash-paren, ws, optional dollar, ws, "in", ws,
scale word (group 1), ws, close paren. -/
def p1m : Pat := fun _ s => do
  let s ← expectChar '(' s
  let s := eatSp s
  let s := eatOptChar '$' s
  let s := eatSp s
  let (_, s) ← takeLitCI "in".toList s
  let s := eatSp s
  let (g, s) ← scaleWordTok s
  let s := eatSp s
  let s ← expectChar ')' s
  pure (g, s)

/-- Pattern 2: word boundary, amounts?|figures?|values? (group 1!), one
or more ws, "in", one or more ws, scale word, word boundary.  Note that
the source regex really captures the cue word, not the scale word, as
its group 1. -/
def p2m : Pat := fun prev s =>
  if !boundaryL prev then none else do
    let (g, s) ← cueWordTok s
    let s ← eatSp1 s
    let (_, s) ← takeLitCI "in".toList s
    let s ← eatSp1 s
    let (_, s) ← scaleWordTok s
    if boundaryR s then pure (g, s) else none

/-- Pattern 3: word boundary, in|reported in, ws+, scale word (group 1),
ws+, "of", ws+, dollars|usd, word boundary. -/
def p3m : Pat := fun prev s =>
  if !boundaryL prev then none else do
    let (_, s) ← takeLitCI "in".toList s <|> takeLitCI "reported in".toList s
    let s ← eatSp1 s
    let (g, s) ← scaleWordTok s
    let s ← eatSp1 s
    let (_, s) ← takeLitCI "of".toList s
    let s ← eatSp1 s
    let (_, s) ← takeLitCI "dollars".toList s <|> takeLitCI "usd".toList s
    if boundaryR s then pure (g, s) else none

/-- Pattern 4: open paren, ws, dollars|usd, ws+, "in", ws+, scale word
(group 1), ws, close paren. -/
def p4m : Pat := fun _ s => do
  let s ← expectChar '(' s
  let s := eatSp s
  let (_, s) ← takeLitCI "dollars".toList s <|> takeLitCI "usd".toList s
  let s ← eatSp1 s
  let (_, s) ← takeLitCI "in".toList s
  let s ← eatSp1 s
  let (g, s) ← scaleWordTok s
  let s := eatSp s
  let s ← expectChar ')' s
  pure (g, s)

/-- Pattern 5: word boundary, dollars|usd, ws+, "in", ws+, scale word
(group 1), word boundary. -/
def p5m : Pat := fun prev s =>
  if !boundaryL prev then none else do
    let (_, s) ← takeLitCI "dollars".toList s <|> takeLitCI "usd".toList s
    let s ← eatSp1 s
    let (_, s) ← takeLitCI "in".toList s
    let s ← eatSp1 s
    let (g, s) ← scaleWordTok s
    if boundaryR s then pure (g, s) else none

/-- Pattern 6: open paren, ws, optional dollar, ws, scale word (group 1),
ws, close paren. -/
def p6m : Pat := fun _ s => do
  let s ← expectChar '(' s
  let s := eatSp s
  let s := eatOptChar '$' s
  let s := eatSp s
  let (g, s) ← scaleWordTok s
  let s := eatSp s
  let s ← expectChar ')' s
  pure (g, s)

/-- Pattern 7: open paren, ws, optional dollar, ws, optional "in" plus
ws+, K|M|B (group 1), ws, close paren. -/
def p7m : Pat := fun _ s => do
  let s ← expectChar '(' s
  let s := eatSp s
  let s := eatOptChar '$' s
  let s := eatSp s
  let s := match (do let (_, r) ← takeLitCI "in".toList s; eatSp1 r : Option (List Char)) with
    | some r => r
    | none => s
  let (g, s) ← kmbTok s
  let s := eatSp s
  let s ← expectChar ')' s
  pure (g, s)

/-- filters._PATTERNS, in source order. -/
def SCALE_PATTERNS : List Pat := [p1m, p2m, p3m, p4m, p5m, p6m, p7m]

/-- re.search: try the matcher at each position, leftmost hit wins;
returns (start, end, group-1 slice). -/
def searchFirst (m : Pat) (s : List Char) : Option (ℕ × ℕ × List Char) :=
  go none 0 s
where
  go : Option Char → ℕ → List Char → Option (ℕ × ℕ × List Char)
  | prev, i, t =>
    match m prev t with
    | some (g, rest) => some (i, i + (t.length - rest.length), g)
    | none =>
      match t with
      | [] => none
      | c :: t2 => go (some c) (i + 1) t2

/-! ### Scale phrase detection (scale.detect_scale_phrase) -/

/-- scale._line_text_and_spans: join word texts with single spaces,
recording each word's character span. -/
def line_text_and_spans (ws : List Word) : List Char × List (ℕ × ℕ) :=
  ws.foldl (fun acc w =>
    let (parts, spans) := acc
    let pos := parts.length
    let (parts, pos) := if spans.isEmpty then (parts, pos) else (parts ++ [' '], pos + 1)
    let t := w.text.toList
    (parts ++ t, spans ++ [(pos, pos + t.length)])) ([], [])

/-- scale._bbox_for_char_span: union bbox of the words whose span
overlaps the matched character range. -/
def bbox_for_char_span (ws : List Word) (spans : List (ℕ × ℕ)) (st en : ℕ) : Option BBox :=
  let sel := ((ws.zip spans).filter (fun p => p.2.1 < en && st < p.2.2)).map Prod.fst
  match sel with
  | [] => none
  | w :: rest =>
    some (rest.foldl (fun (b : BBox) (v : Word) =>
      (min b.1 v.x0, min b.2.1 v.top, max b.2.2.1 v.x1, max b.2.2.2 v.bottom))
      (w.x0, w.top, w.x1, w.bottom))

/-- Normalisation of the matched group: K/M/B expand through
filters._ABBR, otherwise the group is lower-cased (and an absent group
maps to no scale), exactly as in scale.detect_scale_phrase. -/
def applyAbbr (grp : List Char) : Option String :=
  if grp.isEmpty then none
  else
    let up := String.mk (grp.map ucA)
    if up = "K" then some "thousands"
    else if up = "M" then some "millions"
    else if up = "B" then some "billions"
    else some (String.mk (grp.map lcA))

/-- Result of running one pattern against one line (the body of the
inner loop of detect_scale_phrase). -/
def patResult (pat : Pat) (lineWords : List Word) : Option (Option String × String × Option BBox) :=
  let tsp := line_text_and_spans lineWords
  match searchFirst pat tsp.1 with
  | none => none
  | some (st, en, grp) =>
    some (applyAbbr grp, String.mk ((tsp.1.drop st).take (en - st)),
      bbox_for_char_span lineWords tsp.2 st en)

/-- Result of one line: the empty-text guard, then first matching
pattern in table order. -/
def lineResult (lineWords : List Word) : Option (Option String × String × Option BBox) :=
  if (line_text_and_spans lineWords).1.isEmpty then none
  else SCALE_PATTERNS.findSome? (fun pat => patResult pat lineWords)

/-- scale.detect_scale_phrase: first matching line in ascending bucket
order, first matching pattern within the line. -/
def detect_scale_phrase (words : List Word) : Option String × Option String × Option BBox :=
  if words.isEmpty then (none, none, none)
  else
    match (sortedLines words).findSome? (fun kv => lineResult kv.2) with
    | some (sc, ph, bb) => (sc, some ph, bb)
    | none => (none, none, none)

/-- scale.scale_factor. -/
def scale_factor (scale : Option String) : ℚ :=
  let k := strLower (scale.getD "")
  if k = "thousands" then 1000
  else if k = "millions" then 1000000
  else if k = "billions" then 1000000000
  else 1

/-- scale.detect_scale_phrase_in_region: restrict to the words inside
the region, empty guard, then page-level detection on the rest. -/
def detect_scale_phrase_in_region (words : List Word) (region : BBox) :
    Option String × Option String × Option BBox :=
  let sub := words.filter (fun w => inside_bbox (wordBBox w) region (1/2))
  if sub.isEmpty then (none, none, none)
  else detect_scale_phrase sub

/-! ### Unit classification (extractor.HEADCOUNT_PAT, MONEY_HINT_PAT,
classify_units_for_word).  Only the Boolean result of re.search matters
here, so the two vocabulary regexes are embedded as existence checks:
is there a position at which some alternative matches with the word
boundaries the pattern demands?  For the optional plural endings the
embedding keeps both rests and accepts if either satisfies the trailing
boundary, which is exactly the backtracking the regex engine does. -/

def litCI (pat s : List Char) : Option (List Char) :=
  (takeLitCI pat s).map Prod.snd

/-- Both rests produced by an optional trailing s (greedy first). -/
def optS (r : List Char) : List (List Char) :=
  match r with
  | c :: t => if lcA c = 's' then [t, c :: t] else [c :: t]
  | [] => [[]]

/-- All rests after one HEADCOUNT_PAT alternative matching at the start
of s.  The alternatives are, in source order: end\s*strength,
work[-\s]*years? (which also covers the redundant workyears?
alternative with an empty separator run), fte, headcount, person(n)?el,
items\s*managed, quantity, issues, receipts, requisitions, contracts,
units?. -/
def hcAlts (s : List Char) : List (List Char) :=
  (do let r ← litCI "end".toList s
      litCI "strength".toList (r.dropWhile pyIsSpace)).toList ++
  ((do let r ← litCI "work".toList s
       litCI "year".toList (r.dropWhile (fun c => c = '-' || pyIsSpace c))).toList.flatMap optS) ++
  (litCI "fte".toList s).toList ++
  (litCI "headcount".toList s).toList ++
  (litCI "personnel".toList s).toList ++
  (litCI "personel".toList s).toList ++
  (do let r ← litCI "items".toList s
      litCI "managed".toList (r.dropWhile pyIsSpace)).toList ++
  (litCI "quantity".toList s).toList ++
  (litCI "issues".toList s).toList ++
  (litCI "receipts".toList s).toList ++
  (litCI "requisitions".toList s).toList ++
  (litCI "contracts".toList s).toList ++
  ((litCI "unit".toList s).toList.flatMap optS)

/-- re.search for HEADCOUNT_PAT: scan positions left to right. -/
def hcSearchAux : Option Char → List Char → Bool
  | prev, [] => boundaryL prev && (hcAlts []).any boundaryR
  | prev, c :: t =>
    (boundaryL prev && (hcAlts (c :: t)).any boundaryR) || hcSearchAux (some c) t

def HEADCOUNT_search (s : List Char) : Bool := hcSearchAux none s

/-- One position of MONEY_HINT_PAT: a dollar sign, a word-bounded
usd|dollars?, or the parenthesised abbreviation cue (which has exactly
the shape of pattern 7, whose matcher is reused). -/
def mhHere (prev : Option Char) (s : List Char) : Bool :=
  (match s with | c :: _ => c = '$' | [] => false) ||
  (boundaryL prev &&
    (((litCI "usd".toList s).toList ++
      ((litCI "dollar".toList s).toList.flatMap optS)).any boundaryR)) ||
  (p7m prev s).isSome

/-- re.search for MONEY_HINT_PAT. -/
def mhSearchAux : Option Char → List Char → Bool
  | prev, [] => mhHere prev []
  | prev, c :: t => mhHere prev (c :: t) || mhSearchAux (some c) t

def MONEY_search (s : List Char) : Bool := mhSearchAux none s

/-- The left-context string of classify_units_for_word: texts of the
line words whose right edge is at least 2 units left of the number's
left edge, joined by single spaces in original order. -/
def leftContext (word : Word) (lineWords : List Word) : String :=
  String.intercalate " "
    ((lineWords.filter (fun w => decide (w.x1 ≤ word.x0 - 2))).map Word.text)

/-- extractor.classify_units_for_word. -/
def classify_units_for_word (word : Word) (lineWords : List Word) : String :=
  let lt := leftContext word lineWords
  if lt = "" then "unknown"
  else if HEADCOUNT_search lt.toList then "people"
  else if MONEY_search lt.toList then "money"
  else "unknown"

/-! ### The extraction pipeline (extractor.extract_numbers_from_pdf).

The external pdfplumber document is abstracted as a list of PageInput:
the words that page.extract_words returns for the page, and the result
of page.find_tables reduced to table bounding boxes — an Except value,
where error models find_tables raising (the source catches any
exception and proceeds with zero tables). -/

structure NumberHit where
  page_num : ℕ
  raw_text : String
  raw_value : ℚ
  scaled_value : ℚ
  bbox : BBox
  units : String
  scale_name : Option String
  scale_phrase : Option String
  scale_bbox : Option BBox
  table_bbox : Option BBox
deriving DecidableEq, Repr

abbrev ScaleTriple := Option String × Option String × Option BBox

structure PageInput where
  words : List Word
  tablesResult : Except Unit (List BBox)
deriving Repr

/-- The try/except around page.find_tables: an exception yields zero
tables. -/
def pageTables (p : PageInput) : List BBox :=
  match p.tablesResult with
  | .ok ts => ts
  | .error _ => []

/-- The per-table scale list, in table discovery order. -/
def tableScales (words : List Word) (regions : List BBox) : List (BBox × ScaleTriple) :=
  regions.map (fun tb => (tb, detect_scale_phrase_in_region words tb))

/-- The scale-resolution loop of the pipeline: first table box (in
discovery order) containing the number's bbox wins and supplies scale
and factor; otherwise the page-level scale and factor apply and no
table bbox is recorded. -/
def resolveScale (tScales : List (BBox × ScaleTriple)) (pageScale : ScaleTriple)
    (pageFactor : ℚ) (bbox : BBox) : ScaleTriple × ℚ × Option BBox :=
  match tScales.find? (fun ts => inside_bbox bbox ts.1 (1/2)) with
  | some (tb, tsc) => (tsc, scale_factor tsc.1, some tb)
  | none => (pageScale, pageFactor, none)

/-- Python dict lookup line_map.get(y_key, [word]). -/
def lookupLine (m : List (ℚ × List Word)) (k : ℚ) : Option (List Word) :=
  (m.find? (fun kv => decide (kv.1 = k))).map Prod.snd

/-- Body of the per-word loop of the pipeline: parse the token, locate
the word's visual line, resolve the applicable scale, classify units,
apply the people override, and assemble the NumberHit. -/
def processWord (page_num : ℕ) (lineMap : List (ℚ × List Word))
    (tScales : List (BBox × ScaleTriple)) (pageScale : ScaleTriple)
    (pageFactor : ℚ) (word : Word) : Option NumberHit :=
  match parse_number word.text with
  | none => none
  | some rawVal =>
    let bbox := wordBBox word
    let lineWords := (lookupLine lineMap (yKey word)).getD [word]
    let r := resolveScale tScales pageScale pageFactor bbox
    let units := classify_units_for_word word lineWords
    let applyFactor := if units ≠ "people" then r.2.1 else 1
    some {
      page_num := page_num
      raw_text := word.text
      raw_value := rawVal
      scaled_value := rawVal * applyFactor
      bbox := bbox
      units := units
      scale_name := r.1.1
      scale_phrase := r.1.2.1
      scale_bbox := r.1.2.2
      table_bbox := r.2.2 }

/-- One page of the pipeline loop. -/
def processPage (page_num : ℕ) (p : PageInput) : List NumberHit :=
  let words := p.words
  let lineMap := group_words_by_line words
  let tScales := tableScales words (pageTables p)
  let pageScale := detect_scale_phrase words
  let pageFactor := scale_factor pageScale.1
  words.filterMap (processWord page_num lineMap tScales pageScale pageFactor)

/-- The page range loop: 1-based inclusive, clamped to the document. -/
def allHits (pages : List PageInput) (startPage : ℕ) (endPage : Option ℕ) : List NumberHit :=
  let total := pages.length
  let startIdx := max 1 startPage
  let endIdx := match endPage with | none => total | some e => min e total
  (List.range' startIdx (endIdx + 1 - startIdx)).flatMap
    (fun pn => processPage pn (pages.getD (pn - 1) ⟨[], .ok []⟩))

/-- The within_threshold filter of the pipeline (a None bound imposes
no restriction; violating any supplied bound rejects the hit). -/
def within_threshold (maxScaled minScaled maxRaw minRaw : Option ℚ) (h : NumberHit) : Bool :=
  (match maxScaled with | some m => decide (h.scaled_value ≤ m) | none => true) &&
  (match minScaled with | some m => decide (m ≤ h.scaled_value) | none => true) &&
  (match maxRaw with | some m => decide (h.raw_value ≤ m) | none => true) &&
  (match minRaw with | some m => decide (m ≤ h.raw_value) | none => true)

/-- list.sort(key scaled_value, reverse) — a stable descending sort. -/
def sortDesc (l : List NumberHit) : List NumberHit :=
  l.mergeSort (fun a b => decide (b.scaled_value ≤ a.scaled_value))

/-- extractor.extract_numbers_from_pdf: per-page hits, threshold filter,
descending sort by scaled value. -/
def extract_numbers_from_pdf (pages : List PageInput) (startPage : ℕ) (endPage : Option ℕ)
    (maxScaled minScaled maxRaw minRaw : Option ℚ) : List NumberHit :=
  sortDesc ((allHits pages startPage endPage).filter
    (within_threshold maxScaled minScaled maxRaw minRaw))

/-! ### Statement vocabulary for the claims -/

/-- The resolution policy of claim C3, stated independently of the
pipeline loop: either some first containing table (in list order)
supplied the scale fields and its bbox, or no table contains the number
and the page-level scale applies with no table bbox. -/
def scopeResolution (tS : List (BBox × ScaleTriple)) (ps : ScaleTriple)
    (w : Word) (hit : NumberHit) : Prop :=
  (∃ i, ∃ hi : i < tS.length,
    inside_bbox (wordBBox w) (tS.get ⟨i, hi⟩).1 (1/2) = true ∧
    (∀ j (hj : j < tS.length), j < i →
      inside_bbox (wordBBox w) (tS.get ⟨j, hj⟩).1 (1/2) = false) ∧
    hit.scale_name = (tS.get ⟨i, hi⟩).2.1 ∧
    hit.scale_phrase = (tS.get ⟨i, hi⟩).2.2.1 ∧
    hit.scale_bbox = (tS.get ⟨i, hi⟩).2.2.2 ∧
    hit.table_bbox = some (tS.get ⟨i, hi⟩).1) ∨
  ((∀ ts ∈ tS, inside_bbox (wordBBox w) ts.1 (1/2) = false) ∧
    hit.scale_name = ps.1 ∧ hit.scale_phrase = ps.2.1 ∧
    hit.scale_bbox = ps.2.2 ∧ hit.table_bbox = none)

/-- The detection-order property of claim C4: visual lines are visited
in ascending bucket order, matched patterns come from the first line
with any match and, within it, from the first matching pattern of the
table; no earlier line has any pattern result and no earlier pattern
matches the hit line's text. -/
def detectionOrder (words : List Word) (sc : Option String) (ph : String)
    (bb : Option BBox) : Prop :=
  ((sortedLines words).map Prod.fst).Sorted (· ≤ ·) ∧
  ∃ i, ∃ hi : i < (sortedLines words).length,
    lineResult ((sortedLines words).get ⟨i, hi⟩).2 = some (sc, ph, bb) ∧
    (∀ j (hj : j < (sortedLines words).length), j < i →
      lineResult ((sortedLines words).get ⟨j, hj⟩).2 = none) ∧
    ∃ p, ∃ hp : p < SCALE_PATTERNS.length,
      patResult (SCALE_PATTERNS.get ⟨p, hp⟩) ((sortedLines words).get ⟨i, hi⟩).2 =
        some (sc, ph, bb) ∧
      ∀ q (hq : q < SCALE_PATTERNS.length), q < p →
        searchFirst (SCALE_PATTERNS.get ⟨q, hq⟩)
          (line_text_and_spans ((sortedLines words).get ⟨i, hi⟩).2).1 = none

/-- Unit classification as the spec words it (claim C6): headcount
vocabulary first, then money vocabulary, else unknown, on the
left-context text.  Differs from the source only by not special-casing
the empty left context, which matches neither vocabulary anyway. -/
def classifySpec (word : Word) (lineWords : List Word) : String :=
  let lt := leftContext word lineWords
  if HEADCOUNT_search lt.toList then "people"
  else if MONEY_search lt.toList then "money"
  else "unknown"

/-! ### Sample data for the witnesses: one page carrying a page-level
millions cue, a table region with no scale phrase of its own containing
the token 1,250, and the token 300 outside the table. -/

def samplePage : PageInput :=
  ⟨[⟨"(Dollars", 10, 0, 50, 10⟩, ⟨"in", 55, 0, 65, 10⟩, ⟨"Millions)", 70, 0, 110, 10⟩,
    ⟨"1,250", 10, 100, 40, 110⟩, ⟨"300", 10, 200, 40, 210⟩],
   Except.ok [(0, 50, 200, 150)]⟩

def sampleHit300 : NumberHit :=
  ⟨1, "300", 300, 300000000, (10, 200, 40, 210), "unknown", some "millions",
   some "(Dollars in Millions)", some (10, 0, 110, 10), none⟩

def sampleHit1250 : NumberHit :=
  ⟨1, "1,250", 1250, 1250, (10, 100, 40, 110), "unknown", none, none, none,
   some (0, 50, 200, 150)⟩

/-! ### Helper lemmas -/

/-- findSome? characterisation: a hit comes from the first element
producing one; all earlier elements produce none. -/
theorem findSome?_first {α β : Type _} (f : α → Option β) :
    ∀ (l : List α) (b : β), l.findSome? f = some b →
      ∃ i, ∃ hi : i < l.length, f (l.get ⟨i, hi⟩) = some b ∧
        ∀ j (hj : j < l.length), j < i → f (l.get ⟨j, hj⟩) = none
  | [], b, h => by simp [List.findSome?] at h
  | a :: l, b, h => by
    cases hfa : f a with
    | some b0 =>
      refine ⟨0, Nat.succ_pos _, ?_, fun j hj hji => absurd hji (Nat.not_lt_zero j)⟩
      simp only [List.findSome?, hfa] at h
      simpa [hfa] using h
    | none =>
      simp only [List.findSome?, hfa] at h
      obtain ⟨i, hi, hfi, hprev⟩ := findSome?_first f l b h
      refine ⟨i + 1, Nat.succ_lt_succ hi, hfi, fun j hj hji => ?_⟩
      cases j with
      | zero => exact hfa
      | succ j => exact hprev j (Nat.lt_of_succ_lt_succ hj) (Nat.lt_of_succ_lt_succ hji)

/-- find? characterisation: the found element is the first satisfying
the predicate; all earlier elements fail it. -/
theorem find?_first {α : Type _} (p : α → Bool) :
    ∀ (l : List α) (a : α), l.find? p = some a →
      ∃ i, ∃ hi : i < l.length, l.get ⟨i, hi⟩ = a ∧ p a = true ∧
        ∀ j (hj : j < l.length), j < i → p (l.get ⟨j, hj⟩) = false
  | [], a, h => by simp [List.find?] at h
  | x :: l, a, h => by
    cases hpx : p x with
    | true =>
      rw [List.find?_cons_of_pos _ hpx] at h
      injection h with h
      subst h
      exact ⟨0, Nat.succ_pos _, rfl, hpx, fun j hj hji => absurd hji (Nat.not_lt_zero j)⟩
    | false =>
      rw [List.find?_cons_of_neg _ (by simp [hpx])] at h
      obtain ⟨i, hi, hgi, hpa, hprev⟩ := find?_first p l a h
      refine ⟨i + 1, Nat.succ_lt_succ hi, hgi, hpa, fun j hj hji => ?_⟩
      cases j with
      | zero => exact hpx
      | succ j => exact hprev j (Nat.lt_of_succ_lt_succ hj) (Nat.lt_of_succ_lt_succ hji)

theorem resolveScale_of_find?_some {tS : List (BBox × ScaleTriple)} {ps : ScaleTriple}
    {pf : ℚ} {bbox : BBox} {ts : BBox × ScaleTriple}
    (h : tS.find? (fun t => inside_bbox bbox t.1 (1/2)) = some ts) :
    resolveScale tS ps pf bbox = (ts.2, scale_factor ts.2.1, some ts.1) := by
  cases ts
  unfold resolveScale
  rw [h]

theorem resolveScale_of_find?_none {tS : List (BBox × ScaleTriple)} {ps : ScaleTriple}
    {pf : ℚ} {bbox : BBox}
    (h : tS.find? (fun t => inside_bbox bbox t.1 (1/2)) = none) :
    resolveScale tS ps pf bbox = (ps, pf, none) := by
  unfold resolveScale
  rw [h]

/-- When the page factor is the factor of the page scale (as the
pipeline always arranges), the factor resolveScale returns is the
factor of the scale name it returns, in both branches. -/
theorem resolveScale_factor (tS : List (BBox × ScaleTriple)) (ps : ScaleTriple) (bbox : BBox) :
    (resolveScale tS ps (scale_factor ps.1) bbox).2.1 =
      scale_factor (resolveScale tS ps (scale_factor ps.1) bbox).1.1 := by
  cases h : tS.find? (fun t => inside_bbox bbox t.1 (1/2)) with
  | none => simp [resolveScale_of_find?_none h]
  | some ts => simp [resolveScale_of_find?_some h]

/-- Shape of every hit processWord emits. -/
theorem processWord_spec (pn : ℕ) (lm : List (ℚ × List Word))
    (tS : List (BBox × ScaleTriple)) (ps : ScaleTriple) (pf : ℚ) (w : Word)
    (hit : NumberHit) (h : processWord pn lm tS ps pf w = some hit) :
    ∃ rawVal, parse_number w.text = some rawVal ∧
      hit = { page_num := pn
              raw_text := w.text
              raw_value := rawVal
              scaled_value := rawVal *
                (if classify_units_for_word w ((lookupLine lm (yKey w)).getD [w]) ≠ "people"
                 then (resolveScale tS ps pf (wordBBox w)).2.1 else 1)
              bbox := wordBBox w
              units := classify_units_for_word w ((lookupLine lm (yKey w)).getD [w])
              scale_name := (resolveScale tS ps pf (wordBBox w)).1.1
              scale_phrase := (resolveScale tS ps pf (wordBBox w)).1.2.1
              scale_bbox := (resolveScale tS ps pf (wordBBox w)).1.2.2
              table_bbox := (resolveScale tS ps pf (wordBBox w)).2.2 } := by
  cases hp : parse_number w.text with
  | none => simp [processWord, hp] at h
  | some rawVal =>
    refine ⟨rawVal, rfl, ?_⟩
    simp only [processWord, hp] at h
    injection h with h2
    exact h2.symm

/-- Membership in a page's hits comes from processWord on a page word,
with the page-level scale and its factor. -/
theorem mem_processPage {pn : ℕ} {p : PageInput} {hit : NumberHit}
    (h : hit ∈ processPage pn p) :
    ∃ w ∈ p.words,
      processWord pn (group_words_by_line p.words)
        (tableScales p.words (pageTables p)) (detect_scale_phrase p.words)
        (scale_factor (detect_scale_phrase p.words).1) w = some hit := by
  simp only [processPage, List.mem_filterMap] at h
  obtain ⟨w, hw, hpw⟩ := h
  exact ⟨w, hw, hpw⟩

/-- Membership in the collected hits comes from some page of the range. -/
theorem mem_allHits {pages : List PageInput} {sp : ℕ} {ep : Option ℕ} {hit : NumberHit}
    (h : hit ∈ allHits pages sp ep) :
    ∃ pn, hit ∈ processPage pn (pages.getD (pn - 1) ⟨[], Except.ok []⟩) := by
  simp only [allHits, List.mem_flatMap] at h
  obtain ⟨pn, _, hp⟩ := h
  exact ⟨pn, hp⟩

/-- Membership in the pipeline's output comes from the unfiltered hits. -/
theorem mem_extract {pages : List PageInput} {sp : ℕ} {ep : Option ℕ}
    {maxS minS maxR minR : Option ℚ} {hit : NumberHit}
    (h : hit ∈ extract_numbers_from_pdf pages sp ep maxS minS maxR minR) :
    hit ∈ allHits pages sp ep ∧
      within_threshold maxS minS maxR minR hit = true := by
  have h1 : hit ∈ (allHits pages sp ep).filter (within_threshold maxS minS maxR minR) := by
    simpa [extract_numbers_from_pdf, sortDesc] using h
  exact ⟨(List.mem_filter.mp h1).1, (List.mem_filter.mp h1).2⟩

/-! ### Claim theorems -/

/-- C5: the Token Parser satisfies the contract examples:
parse("1,234.56") = 1234.56, parse("(1,234)") = -1234.0 (parenthesised
on both ends negates), parse("12%") is rejected, parse("$0.5") = 0.5,
parse("abc") is rejected; trailing footnote glyphs (asterisk, dagger,
double dagger, superscript digits) are ignored and do not affect the
parse, on accepted and rejected tokens alike. -/
theorem C5_token_parser_examples :
    parse_number "1,234.56" = some 1234.56 ∧
    parse_number "(1,234)" = some (-1234) ∧
    parse_number "12%" = none ∧
    parse_number "$0.5" = some 0.5 ∧
    parse_number "abc" = none ∧
    parse_number "1,234.56*" = some 1234.56 ∧
    parse_number "1,234.56†" = some 1234.56 ∧
    parse_number "1,234.56‡" = some 1234.56 ∧
    parse_number "1,234.56¹" = some 1234.56 ∧
    parse_number "1,234.56⁴" = some 1234.56 ∧
    parse_number "(1,234)*†³" = some (-1234) ∧
    parse_number "$0.5²" = some 0.5 ∧
    parse_number "12%*" = none := by decide

/-- C8: the Token Parser is a total function from arbitrary strings to
an optional numeric value: for every input token (including the empty
string) it returns either a value or no value.  In this embedding the
Python possibility of an uncaught exception is modelled by the optional
return type, so totality of parse_number — it is a structurally
recursive Lean function defined on all of String — is exactly the
never-raises guarantee, covering tokens that fail the grammar and the
numeric-conversion guard alike. -/
theorem C8_token_parser_total (t : String) :
    parse_number t = none ∨ ∃ v : ℚ, parse_number t = some v := by
  cases h : parse_number t with
  | none => exact Or.inl rfl
  | some v => exact Or.inr ⟨v, rfl⟩

theorem C8_token_parser_total_witness :
    parse_number "" = none ∨ ∃ v : ℚ, parse_number "" = some v :=
  C8_token_parser_total ""

/-- C1 (code bug evidence): on the single line "amounts in millions" —
which matches pattern 2 of the table and no earlier pattern — the Scale
Phrase Detector returns the cue word "amounts" as the scale, not the
scale word "millions" the claim (and the function's own documentation)
promises: pattern 2 captures amounts?|figures?|values? as its group 1
and detect_scale_phrase reads group 1 as the scale.  The bogus scale
name then falls through scale_factor to factor 1. -/
theorem C1_amounts_line_eval :
    detect_scale_phrase
      [⟨"amounts", 10, 100, 50, 110⟩, ⟨"in", 55, 100, 65, 110⟩,
       ⟨"millions", 70, 100, 110, 110⟩] =
      (some "amounts", some "amounts in millions", some (10, 100, 110, 110)) ∧
    scale_factor (some "amounts") = 1 := by decide

/-- C2: for every NumberHit the pipeline emits, scaled_value equals
raw_value times the factor of the hit's scale name — hits with units
"unknown" or "money" (or anything other than "people") are scaled by
the detected factor — except that units "people" forces the factor to 1
regardless of any detected scale, so scaled_value = raw_value. -/
theorem C2_scaling_invariant (pages : List PageInput) (sp : ℕ) (ep : Option ℕ)
    (maxS minS maxR minR : Option ℚ) (hit : NumberHit)
    (hmem : hit ∈ extract_numbers_from_pdf pages sp ep maxS minS maxR minR) :
    (hit.units = "people" → hit.scaled_value = hit.raw_value) ∧
    (hit.units ≠ "people" →
      hit.scaled_value = hit.raw_value * scale_factor hit.scale_name) := by
  obtain ⟨hall, _⟩ := mem_extract hmem
  obtain ⟨pn, hpp⟩ := mem_allHits hall
  obtain ⟨w, hw, hpw⟩ := mem_processPage hpp
  obtain ⟨rawVal, hparse, hhit⟩ := processWord_spec _ _ _ _ _ _ _ hpw
  rw [hhit]
  refine ⟨fun hp => ?_, fun hnp => ?_⟩
  · dsimp only at hp ⊢
    rw [hp]
    simp
  · dsimp only at hnp ⊢
    rw [if_pos hnp, resolveScale_factor]

theorem C2_scaling_invariant_witness :
    (sampleHit300.units = "people" →
      sampleHit300.scaled_value = sampleHit300.raw_value) ∧
    (sampleHit300.units ≠ "people" →
      sampleHit300.scaled_value =
        sampleHit300.raw_value * scale_factor sampleHit300.scale_name) :=
  C2_scaling_invariant [samplePage] 1 none none none none none sampleHit300 (by decide)

/-- C3: for every number a page emits, the table boxes (in their
original discovery order, as listed in tScales) are tested with
inside_bbox at tolerance 1/2 on all four sides; the first containing
box supplies the number's scale name, phrase and bbox and is recorded
as table_bbox, overriding the page-level scale; if no table box
contains the number, the page-level ScaleMatch applies and table_bbox
is absent. -/
theorem C3_region_scope (pn : ℕ) (lm : List (ℚ × List Word))
    (tS : List (BBox × ScaleTriple)) (ps : ScaleTriple) (pf : ℚ) (w : Word)
    (hit : NumberHit) (h : processWord pn lm tS ps pf w = some hit) :
    scopeResolution tS ps w hit := by
  obtain ⟨rawVal, hparse, hhit⟩ := processWord_spec _ _ _ _ _ _ _ h
  cases hfind : tS.find? (fun t => inside_bbox (wordBBox w) t.1 (1/2)) with
  | some ts =>
    obtain ⟨i, hi, hget, hpred, hprev⟩ := find?_first _ _ _ hfind
    left
    refine ⟨i, hi, ?_, ?_, ?_, ?_, ?_, ?_⟩
    · rw [hget]; exact hpred
    · intro j hj hji; exact hprev j hj hji
    all_goals simp only [hhit, resolveScale_of_find?_some hfind, hget]
  | none =>
    right
    have hnone : ∀ ts ∈ tS, inside_bbox (wordBBox w) ts.1 (1/2) = false := by
      intro ts hts
      simpa using List.find?_eq_none.mp hfind ts hts
    refine ⟨hnone, ?_, ?_, ?_, ?_⟩ <;>
      simp only [hhit, resolveScale_of_find?_none hfind]

theorem C3_region_scope_witness :
    scopeResolution
      (tableScales samplePage.words (pageTables samplePage))
      (detect_scale_phrase samplePage.words)
      ⟨"1,250", 10, 100, 40, 110⟩ sampleHit1250 :=
  C3_region_scope 1
    (group_words_by_line samplePage.words)
    (tableScales samplePage.words (pageTables samplePage))
    (detect_scale_phrase samplePage.words)
    (scale_factor (detect_scale_phrase samplePage.words).1)
    ⟨"1,250", 10, 100, 40, 110⟩ sampleHit1250 (by decide)

/-- C10: a number contained in a (first containing) table box whose
region yields no scale-phrase match gets an emitted hit with
scale_name, scale_phrase and scale_bbox all absent, scaled_value equal
to raw_value (factor 1), and that table recorded as table_bbox — the
page-level scale (an arbitrary ps here, so in particular a present one)
is never used as a fallback inside a table region. -/
theorem C10_table_without_scale (pn : ℕ) (lm : List (ℚ × List Word))
    (words : List Word) (regions : List BBox) (ps : ScaleTriple) (pf : ℚ)
    (w : Word) (hit : NumberHit) (ts : BBox × ScaleTriple)
    (h : processWord pn lm (tableScales words regions) ps pf w = some hit)
    (hfind : (tableScales words regions).find?
      (fun t => inside_bbox (wordBBox w) t.1 (1/2)) = some ts)
    (hscale : detect_scale_phrase_in_region words ts.1 = (none, none, none)) :
    hit.scale_name = none ∧ hit.scale_phrase = none ∧ hit.scale_bbox = none ∧
    hit.table_bbox = some ts.1 ∧ hit.scaled_value = hit.raw_value := by
  obtain ⟨rawVal, hparse, hhit⟩ := processWord_spec _ _ _ _ _ _ _ h
  have hmem := List.mem_of_find?_eq_some hfind
  simp only [tableScales, List.mem_map] at hmem
  obtain ⟨tb, htb, hts⟩ := hmem
  have h1 : ts.1 = tb := by rw [← hts]
  have h2 : ts.2 = (none, none, none) := by
    rw [← hts]
    dsimp only
    rw [← h1]
    exact hscale
  have hsf : scale_factor (none : Option String) = 1 := by decide
  refine ⟨?_, ?_, ?_, ?_, ?_⟩
  · simp only [hhit, resolveScale_of_find?_some hfind, h2]
  · simp only [hhit, resolveScale_of_find?_some hfind, h2]
  · simp only [hhit, resolveScale_of_find?_some hfind, h2]
  · simp only [hhit, resolveScale_of_find?_some hfind]
  · simp only [hhit, resolveScale_of_find?_some hfind, h2]
    simp [hsf]

theorem C10_table_without_scale_witness :
    sampleHit1250.scale_name = none ∧ sampleHit1250.scale_phrase = none ∧
    sampleHit1250.scale_bbox = none ∧
    sampleHit1250.table_bbox = some ((0 : ℚ), (50 : ℚ), (200 : ℚ), (150 : ℚ)) ∧
    sampleHit1250.scaled_value = sampleHit1250.raw_value :=
  C10_table_without_scale 1 (group_words_by_line samplePage.words) samplePage.words
    [(0, 50, 200, 150)] (detect_scale_phrase samplePage.words)
    (scale_factor (detect_scale_phrase samplePage.words).1)
    ⟨"1,250", 10, 100, 40, 110⟩ sampleHit1250 ((0, 50, 200, 150), (none, none, none))
    (by decide) (by rfl) (by rfl)

/-- C9: when table discovery raises (the error case of the page input),
the page is processed exactly as a page with zero tables — the hits are
still produced — and every hit of that page carries the page-level
scale with no table bbox. -/
theorem C9_graceful_table_failure (pn : ℕ) (words : List Word) :
    processPage pn ⟨words, Except.error ()⟩ = processPage pn ⟨words, Except.ok []⟩ ∧
    ∀ hit ∈ processPage pn ⟨words, Except.error ()⟩,
      hit.table_bbox = none ∧
      hit.scale_name = (detect_scale_phrase words).1 ∧
      hit.scale_phrase = (detect_scale_phrase words).2.1 ∧
      hit.scale_bbox = (detect_scale_phrase words).2.2 := by
  refine ⟨rfl, ?_⟩
  intro hit hmem
  obtain ⟨w, hw, hpw⟩ := mem_processPage hmem
  obtain ⟨rawVal, hparse, hhit⟩ := processWord_spec _ _ _ _ _ _ _ hpw
  have hfind : (tableScales (PageInput.mk words (Except.error ())).words
      (pageTables ⟨words, Except.error ()⟩)).find?
      (fun t => inside_bbox (wordBBox w) t.1 (1/2)) = none := rfl
  refine ⟨?_, ?_, ?_, ?_⟩ <;>
    simp only [hhit, resolveScale_of_find?_none hfind]

theorem C9_graceful_table_failure_witness :
    processPage 1 ⟨samplePage.words, Except.error ()⟩ =
      processPage 1 ⟨samplePage.words, Except.ok []⟩ ∧
    ∀ hit ∈ processPage 1 ⟨samplePage.words, Except.error ()⟩,
      hit.table_bbox = none ∧
      hit.scale_name = (detect_scale_phrase samplePage.words).1 ∧
      hit.scale_phrase = (detect_scale_phrase samplePage.words).2.1 ∧
      hit.scale_bbox = (detect_scale_phrase samplePage.words).2.2 :=
  C9_graceful_table_failure 1 samplePage.words

theorem patResult_none_iff (pat : Pat) (lw : List Word) :
    patResult pat lw = none ↔ searchFirst pat (line_text_and_spans lw).1 = none := by
  unfold patResult
  cases h : searchFirst pat (line_text_and_spans lw).1 with
  | none => simp [h]
  | some trip =>
    obtain ⟨st, en, grp⟩ := trip
    simp [h]

theorem sortedLines_keys_sorted (words : List Word) :
    ((sortedLines words).map Prod.fst).Sorted (fun a b => a ≤ b) := by
  have h : (List.mergeSort (group_words_by_line words)
      (fun a b => decide (a.1 ≤ b.1))).Pairwise
      (fun a b => decide (a.1 ≤ b.1) = true) := by
    apply List.sorted_mergeSort
    · intro a b c hab hbc
      exact decide_eq_true (le_trans (of_decide_eq_true hab) (of_decide_eq_true hbc))
    · intro a b
      simp only [Bool.or_eq_true, decide_eq_true_eq]
      exact le_total a.1 b.1
  have h2 : (sortedLines words).Pairwise (fun a b => a.1 ≤ b.1) := by
    rw [sortedLines]
    exact h.imp (fun hab => of_decide_eq_true hab)
  exact List.Pairwise.map Prod.fst (fun a b hab => hab) h2

/-- C4: the Scale Phrase Detector visits visual lines in ascending
bucket-key order and, within a line, the patterns in table order; the
returned ScaleMatch (at most one — the function returns one optional
triple) is the result of the first matching pattern on the first line
with any match, every earlier line yielding no match and every earlier
pattern failing to match on the hit line. -/
theorem C4_detection_order (words : List Word) (sc : Option String) (ph : String)
    (bb : Option BBox) (h : detect_scale_phrase words = (sc, some ph, bb)) :
    detectionOrder words sc ph bb := by
  refine ⟨sortedLines_keys_sorted words, ?_⟩
  unfold detect_scale_phrase at h
  by_cases hw : words.isEmpty
  · rw [if_pos hw] at h
    exact absurd (congrArg (fun t => t.2.1) h) (by simp)
  · rw [if_neg hw] at h
    cases hfs : (sortedLines words).findSome? (fun kv => lineResult kv.2) with
    | none =>
      rw [hfs] at h
      exact absurd (congrArg (fun t => t.2.1) h) (by simp)
    | some trip =>
      obtain ⟨a, b, c⟩ := trip
      rw [hfs] at h
      have ha : a = sc := congrArg (fun t => t.1) h
      have hb : (some b : Option String) = some ph := congrArg (fun t => t.2.1) h
      have hc : c = bb := congrArg (fun t => t.2.2) h
      injection hb with hb
      subst ha; subst hb; subst hc
      obtain ⟨i, hi, hline, hprevl⟩ := findSome?_first _ _ _ hfs
      refine ⟨i, hi, hline, fun j hj hji => hprevl j hj hji, ?_⟩
      have hline2 := hline
      unfold lineResult at hline2
      by_cases htxt : (line_text_and_spans ((sortedLines words).get ⟨i, hi⟩).2).1.isEmpty
      · rw [if_pos htxt] at hline2
        exact absurd hline2 (by simp)
      · rw [if_neg htxt] at hline2
        obtain ⟨p, hp, hpat, hprevp⟩ := findSome?_first _ _ _ hline2
        exact ⟨p, hp, hpat, fun q hq hqp => (patResult_none_iff _ _).mp (hprevp q hq hqp)⟩

theorem C4_detection_order_witness :
    detectionOrder
      [⟨"(Dollars", 10, 100, 50, 110⟩, ⟨"in", 55, 100, 65, 110⟩,
       ⟨"Millions)", 70, 100, 110, 110⟩]
      (some "millions") "(Dollars in Millions)" (some (10, 100, 110, 110)) :=
  C4_detection_order _ _ _ _ (by decide)

/-- C6: the Unit Classifier agrees everywhere with the specification
order — headcount vocabulary on the left-context text first, then money
vocabulary, else unknown (the source's extra early return for an empty
left context is invisible because the empty text matches neither
vocabulary) — and, concretely, a left context containing both
"Personnel" (headcount) and a dollar sign (money) classifies as people,
because headcount is checked first. -/
theorem C6_unit_classifier :
    (∀ (w : Word) (lws : List Word),
      classify_units_for_word w lws = classifySpec w lws) ∧
    classify_units_for_word ⟨"340", 100, 50, 120, 60⟩
      [⟨"Personnel", 0, 50, 20, 60⟩, ⟨"$", 25, 50, 30, 60⟩,
       ⟨"340", 100, 50, 120, 60⟩] = "people" := by
  constructor
  · intro w lws
    simp only [classify_units_for_word, classifySpec]
    by_cases hlt : leftContext w lws = ""
    · rw [if_pos hlt, hlt]
      decide
    · rw [if_neg hlt]
  · decide

theorem within_threshold_eq_true_iff (maxS minS maxR minR : Option ℚ) (h : NumberHit) :
    within_threshold maxS minS maxR minR h = true ↔
      (∀ m, maxS = some m → h.scaled_value ≤ m) ∧
      (∀ m, minS = some m → m ≤ h.scaled_value) ∧
      (∀ m, maxR = some m → h.raw_value ≤ m) ∧
      (∀ m, minR = some m → m ≤ h.raw_value) := by
  unfold within_threshold
  cases maxS <;> cases minS <;> cases maxR <;> cases minR <;>
    simp [decide_eq_true_eq, and_assoc]

/-- C7: the pipeline's returned list is a permutation of exactly the
produced hits satisfying every supplied bound (inclusively, an omitted
bound imposing no restriction), and it is ordered by scaled value
descending. -/
theorem C7_filter_and_sort (pages : List PageInput) (sp : ℕ) (ep : Option ℕ)
    (maxS minS maxR minR : Option ℚ) :
    (extract_numbers_from_pdf pages sp ep maxS minS maxR minR).Perm
      ((allHits pages sp ep).filter (within_threshold maxS minS maxR minR)) ∧
    (extract_numbers_from_pdf pages sp ep maxS minS maxR minR).Sorted
      (fun a b => b.scaled_value ≤ a.scaled_value) ∧
    ∀ hit ∈ extract_numbers_from_pdf pages sp ep maxS minS maxR minR,
      (∀ m, maxS = some m → hit.scaled_value ≤ m) ∧
      (∀ m, minS = some m → m ≤ hit.scaled_value) ∧
      (∀ m, maxR = some m → hit.raw_value ≤ m) ∧
      (∀ m, minR = some m → m ≤ hit.raw_value) := by
  refine ⟨List.mergeSort_perm _ _, ?_, ?_⟩
  · have h : (((allHits pages sp ep).filter
        (within_threshold maxS minS maxR minR)).mergeSort
        (fun a b => decide (b.scaled_value ≤ a.scaled_value))).Pairwise
        (fun a b => decide (b.scaled_value ≤ a.scaled_value) = true) := by
      apply List.sorted_mergeSort
      · intro a b c hab hbc
        exact decide_eq_true (le_trans (of_decide_eq_true hbc) (of_decide_eq_true hab))
      · intro a b
        simp only [Bool.or_eq_true, decide_eq_true_eq]
        exact le_total b.scaled_value a.scaled_value
    exact h.imp (fun hab => of_decide_eq_true hab)
  · intro hit hmem
    exact (within_threshold_eq_true_iff maxS minS maxR minR hit).mp (mem_extract hmem).2

theorem C7_filter_and_sort_witness :
    (extract_numbers_from_pdf [samplePage] 1 none none none none none).Perm
      ((allHits [samplePage] 1 none).filter (within_threshold none none none none)) ∧
    (extract_numbers_from_pdf [samplePage] 1 none none none none none).Sorted
      (fun a b => b.scaled_value ≤ a.scaled_value) ∧
    ∀ hit ∈ extract_numbers_from_pdf [samplePage] 1 none none none none none,
      (∀ m, (none : Option ℚ) = some m → hit.scaled_value ≤ m) ∧
      (∀ m, (none : Option ℚ) = some m → m ≤ hit.scaled_value) ∧
      (∀ m, (none : Option ℚ) = some m → hit.raw_value ≤ m) ∧
      (∀ m, (none : Option ℚ) = some m → m ≤ hit.raw_value) :=
  C7_filter_and_sort [samplePage] 1 none none none none none

end Conductor
